import Mathlib

/-!
Verification of the holy-diver cluster agent against its specification.

The development shallowly embeds the Rust sources (src/swim/broadcast.rs,
src/swim/core.rs, src/swim/members.rs, src/swim/server.rs, src/lib.rs)
into Lean.  Bytes are natural numbers below 256, byte strings are lists,
and the bincode `DefaultOptions` codec (variable-width integers,
little-endian, length-prefixed byte sequences) is modelled explicitly.
Rust panics (`unwrap` / `expect` on a failed operation) are modelled as an
explicit outcome constructor, never as Lean failure.
-/

namespace HolyDiver

/-- A byte string: each element is intended to lie below 256. -/
abbrev ByteSeq := List Nat

/-! ## Little-endian fixed-width integers and the bincode varint -/

/-- Little-endian byte decomposition, `k` bytes of `n` (truncating at `256^k`),
as produced by bincode for fixed-width integers. -/
def toLEBytes : Nat → Nat → ByteSeq
  | 0, _ => []
  | k + 1, n => n % 256 :: toLEBytes k (n / 256)

/-- Recompose a little-endian byte string into a natural number. -/
def fromLEBytes : ByteSeq → Nat
  | [] => 0
  | b :: rest => b + 256 * fromLEBytes rest

/-- Read `k` bytes from the front of a stream as a little-endian integer,
returning the value and the remaining stream. -/
def readLE (k : Nat) (l : ByteSeq) : Option (Nat × ByteSeq) :=
  if k ≤ l.length then some (fromLEBytes (l.take k), l.drop k) else none

/-- Encoding of an unsigned integer under bincode `DefaultOptions`
(varint encoding): one byte below 251, marker 251 plus a little-endian
u16, marker 252 plus a u32, marker 253 plus a u64. -/
def encodeVarint (n : Nat) : ByteSeq :=
  if n < 251 then [n]
  else if n < 2 ^ 16 then 251 :: toLEBytes 2 n
  else if n < 2 ^ 32 then 252 :: toLEBytes 4 n
  else 253 :: toLEBytes 8 n

/-- Decoding of a bincode varint from the front of a stream. -/
def decodeVarint : ByteSeq → Option (Nat × ByteSeq)
  | [] => none
  | b :: rest =>
    if b < 251 then some (b, rest)
    else if b = 251 then readLE 2 rest
    else if b = 252 then readLE 4 rest
    else if b = 253 then readLE 8 rest
    else none

/-! ## Serde-level encoders used by the source

`Uuid` serializes as a 16-byte `serialize_bytes` call (varint length 16,
then the raw bytes); `Vec<u8>` as a varint length followed by the raw
bytes.  A `uuid::Uuid` value is modelled as its byte string, which for a
real UUID always has length 16. -/

abbrev Uuid := ByteSeq

/-- Bincode encoding of a `Uuid` (`serialize_bytes` of its 16 bytes). -/
def encodeUuid (u : Uuid) : ByteSeq := encodeVarint u.length ++ u

/-- Bincode encoding of a length-prefixed byte sequence (`Vec<u8>`). -/
def encodeByteSeq (b : ByteSeq) : ByteSeq := encodeVarint b.length ++ b

/-- Bincode decoding of a `Uuid`: the `uuid` crate visitor rejects any
byte string whose length is not exactly 16. -/
def parseUuid (l : ByteSeq) : Option (Uuid × ByteSeq) :=
  match decodeVarint l with
  | none => none
  | some (n, rest) =>
    if n = 16 then
      if 16 ≤ rest.length then some (rest.take 16, rest.drop 16) else none
    else none

/-- Bincode decoding of a `Vec<u8>`. -/
def parseVecU8 (l : ByteSeq) : Option (ByteSeq × ByteSeq) :=
  match decodeVarint l with
  | none => none
  | some (n, rest) =>
    if n ≤ rest.length then some (rest.take n, rest.drop n) else none

/-! ## Data model of src/swim/broadcast.rs -/

/-- Model of `std::net::SocketAddr`: a v4 or v6 endpoint.  Only equality
of addresses matters to the claims; the serde encoding of the v6 extra
fields is irrelevant to every theorem below. -/
inductive SocketAddr
  | v4 (o1 o2 o3 o4 : Nat) (port : Nat)
  | v6 (segments : List Nat) (port : Nat) (flowinfo : Nat) (scopeId : Nat)
deriving DecidableEq, Repr

/-- Model of `std::time::SystemTime` as nanoseconds since the epoch;
the source only compares such values with `>`. -/
abbrev SysTime := Nat

/-- The `Tag` enum of broadcast.rs: `Operation { operation_id }` and
`NodeConfig { node, version }`. -/
inductive Tag
  | Operation (operation_id : Uuid)
  | NodeConfig (node : SocketAddr) (version : SysTime)
deriving DecidableEq, Repr

/-- Serde encoding of a `SocketAddr` under bincode: variant index, then
the address octets, then the varint port.  (Modelled for totality of
`encodeTag`; no claim exercises its bytes.) -/
def encodeSocketAddr : SocketAddr → ByteSeq
  | .v4 o1 o2 o3 o4 port => 0 :: [o1, o2, o3, o4] ++ encodeVarint port
  | .v6 segments port _ _ => 1 :: segments ++ encodeVarint port

/-- Serde encoding of a `SystemTime` under bincode: the duration since
the epoch as varint seconds then varint nanoseconds. -/
def encodeSysTime (t : SysTime) : ByteSeq :=
  encodeVarint (t / 1000000000) ++ encodeVarint (t % 1000000000)

/-- Bincode encoding of a `Tag` value: varint variant index, then the
variant fields in order. -/
def encodeTag : Tag → ByteSeq
  | .Operation operation_id => 0 :: encodeUuid operation_id
  | .NodeConfig node version => 1 :: encodeSocketAddr node ++ encodeSysTime version

/-- The `MessageType` enum of broadcast.rs. -/
inductive MessageType
  | FullSync
  | IncSync
deriving DecidableEq, Repr

/-- Bincode encoding of a `MessageType`: the varint variant index. -/
def encodeMessageType : MessageType → ByteSeq
  | .FullSync => [0]
  | .IncSync => [1]

/-- The `GossipMessage` struct of broadcast.rs. -/
structure GossipMessage where
  message_type : MessageType
  message_payload : ByteSeq
deriving DecidableEq, Repr

/-- Bincode encoding of a `GossipMessage`: the fields in order. -/
def encodeGossipMessage (m : GossipMessage) : ByteSeq :=
  encodeMessageType m.message_type ++ encodeByteSeq m.message_payload

/-- The `RawBroadcast` struct of broadcast.rs. -/
structure RawBroadcast where
  id : Uuid
  data : ByteSeq
deriving DecidableEq, Repr

/-- Bincode encoding of a `RawBroadcast`: the `id` then the `data` field. -/
def encodeRawBroadcast (b : RawBroadcast) : ByteSeq :=
  encodeUuid b.id ++ encodeByteSeq b.data

/-- Bincode decoding of a `RawBroadcast` from the front of a stream. -/
def parseRawBroadcast (l : ByteSeq) : Option (RawBroadcast × ByteSeq) :=
  match parseUuid l with
  | none => none
  | some (id, r1) =>
    match parseVecU8 r1 with
    | none => none
    | some (data, r2) => some (⟨id, data⟩, r2)

/-- The `impl Invalidates for RawBroadcast`: always `false`. -/
def RawBroadcast.invalidates (_self _other : RawBroadcast) : Bool := false

/-- The `impl AsRef<[u8]> for RawBroadcast`: the byte view is the `data`
field alone. -/
def RawBroadcast.asRef (b : RawBroadcast) : ByteSeq := b.data

/-- The `Broadcast` struct of broadcast.rs: a tag kept beside the framed
bytes. -/
structure Broadcast where
  tag : Tag
  data : ByteSeq
deriving DecidableEq, Repr

/-- The `impl Invalidates for Broadcast` of broadcast.rs: two `NodeConfig`
tags for the same node compare their versions; every other combination
is `false`. -/
def Broadcast.invalidates (self other : Broadcast) : Bool :=
  match self.tag, other.tag with
  | .NodeConfig self_node self_version, .NodeConfig other_node other_version =>
    if self_node = other_node then decide (self_version > other_version) else false
  | _, _ => false

/-- The `impl AsRef<[u8]> for Broadcast`: the byte view is the `data`
field. -/
def Broadcast.asRef (b : Broadcast) : ByteSeq := b.data

/-! ## The crafting functions of `impl Handler` -/

/-- Big-endian two-byte write of a length, as `BytesMut::put_u16` does
after the `as u16` truncation. -/
def u16be (n : Nat) : ByteSeq := [n / 256 % 256, n % 256]

/-- `Handler::craft_broadcast3`: bincode-serialize the whole
`RawBroadcast`; no length header is written. -/
def craft_broadcast3 (broadcast : RawBroadcast) : ByteSeq :=
  encodeRawBroadcast broadcast

/-- `Handler::craft_broadcast2`: bincode-serialize the tag, append the
item bytes verbatim (`writer.write(item)`), then put the two-byte
big-endian length of that content in front. -/
def craft_broadcast2 (tag : Tag) (item : ByteSeq) : Broadcast :=
  let content := encodeTag tag ++ item
  { tag := tag, data := u16be content.length ++ content }

/-- `Handler::craft_broadcast::<T>`: bincode-serialize the tag then the
item, then put the two-byte big-endian length of that content in front.
The serializer for the item type `T` is passed explicitly. -/
def craft_broadcast {α : Type} (enc : α → ByteSeq) (tag : Tag) (item : α) : Broadcast :=
  let content := encodeTag tag ++ enc item
  { tag := tag, data := u16be content.length ++ content }

/-! ## The receive path of `impl BroadcastHandler for Handler` -/

/-- The deduplication state of `Handler`: the `seen_op_ids` set,
modelled as a list of ids. -/
structure HandlerState where
  seen_op_ids : List Uuid
deriving DecidableEq, Repr

/-- A fresh handler state (`HashSet::new()`). -/
def HandlerState.fresh : HandlerState := ⟨[]⟩

/-- Outcome of one `receive_item` call.  The Rust return type is
`Result<Option<RawBroadcast>, String>`; the active code additionally may
panic through `unwrap` on a failed deserialization, which is modelled as
its own constructor.  The `err` constructor exists in the type but is
never produced by the code. -/
inductive ReceiveResult
  | panic
  | err (msg : String)
  | ok (item : Option RawBroadcast)
deriving DecidableEq, Repr

/-- One `receive_item` step: the new handler state, the returned value,
and the list of `message_handler` invocations it performed. -/
structure ReceiveStep where
  state : HandlerState
  result : ReceiveResult
  calls : List (MessageType × ByteSeq)
deriving DecidableEq, Repr

/-- `Handler::receive_item` of broadcast.rs: bincode-deserialize a
`RawBroadcast` (panicking on failure via `unwrap`); drop already-seen
ids with `Ok(None)`; otherwise record the id, invoke the message handler
with `MessageType::FullSync` and the inner data, and return the
broadcast for re-dissemination. -/
def receive_item (data : ByteSeq) (s : HandlerState) : ReceiveStep :=
  match parseRawBroadcast data with
  | none => ⟨s, .panic, []⟩
  | some (broadcast, _rest) =>
    if broadcast.id ∈ s.seen_op_ids then
      ⟨s, .ok none, []⟩
    else
      ⟨⟨broadcast.id :: s.seen_op_ids⟩, .ok (some broadcast),
        [(MessageType.FullSync, broadcast.data)]⟩

/-- Number of message-handler invocations attributable to items carrying
id `u` over a sequence of `receive_item` calls started in state `s`. -/
def storeCallCount (u : Uuid) : List ByteSeq → HandlerState → Nat
  | [], _ => 0
  | d :: rest, s =>
    let step := receive_item d s
    (match step.result with
     | .ok (some b) => if b.id = u then step.calls.length else 0
     | _ => 0) + storeCallCount u rest step.state

/-! ## The member registry of src/swim/members.rs

`Members` wraps a `HashMap<SocketAddr, u8>`, modelled as an association
list with at most one entry per address.  The counter is a `u8`; the
unchecked `+= 1` / `-= 1` of the source are modelled with release-mode
wrapping arithmetic (`% 256`). -/

/-- The `ID` struct of src/swim/types.rs: an address plus a 16-bit
rejoin nonce. -/
structure ID where
  addr : SocketAddr
  bump : Nat
deriving DecidableEq, Repr

/-- The `Members` registry: address to `u8` reference count. -/
def Members := List (SocketAddr × Nat)

/-- `Members::new()`. -/
def Members.new : Members := []

/-- Map lookup in the registry. -/
def Members.lookup : Members → SocketAddr → Option Nat
  | [], _ => none
  | (a, c) :: rest, x => if a = x then some c else Members.lookup rest x

/-- Removal of an address entry from the registry. -/
def Members.eraseAddr : Members → SocketAddr → Members
  | [], _ => []
  | (a, c) :: rest, x =>
    if a = x then Members.eraseAddr rest x else (a, c) :: Members.eraseAddr rest x

/-- Keyed insertion in the registry (one entry per address, as in
`HashMap`). -/
def Members.insertAddr (m : Members) (x : SocketAddr) (c : Nat) : Members :=
  (x, c) :: m.eraseAddr x

/-- The reference count of an address, zero when absent (matching
`entry(..).or_insert(0)`). -/
def Members.countOf (m : Members) (a : SocketAddr) : Nat :=
  (m.lookup a).getD 0

/-- `Members::add_member`: increment the address's counter (inserting 0
first when absent) and report whether the new counter is exactly 1. -/
def Members.add_member (m : Members) (member : ID) : Members × Bool :=
  let counter := m.countOf member.addr
  let counter2 := (counter + 1) % 256
  (m.insertAddr member.addr counter2, counter2 == 1)

/-- `Members::remove_member`: when the address is present, decrement its
counter; when the counter reaches 0 the entry is deleted and the call
reports `true`.  An absent address is a no-op reporting `false`. -/
def Members.remove_member (m : Members) (member : ID) : Members × Bool :=
  match m.lookup member.addr with
  | none => (m, false)
  | some counter =>
    let counter2 := (counter + 255) % 256
    if counter2 = 0 then (m.eraseAddr member.addr, true)
    else (m.insertAddr member.addr counter2, false)

/-- One registry call, for quantifying over call sequences. -/
inductive MemberOp
  | add (id : ID)
  | remove (id : ID)
deriving DecidableEq, Repr

/-- State reached by a sequence of registry calls. -/
def applyMemberOp (m : Members) : MemberOp → Members
  | .add id => (m.add_member id).1
  | .remove id => (m.remove_member id).1

/-- Fold a sequence of registry calls from a starting state. -/
def applyMemberOps (ops : List MemberOp) (m : Members) : Members :=
  ops.foldl applyMemberOp m

/-! ## The document store of src/swim/core.rs

The automerge crate is an external collaborator: the claims below only
exercise the `values` sub-map, which is modelled directly as a string
association list; the document load/merge primitives appear as explicit
function parameters where `handle_message` needs them. -/

/-- The `values` sub-map of the automerge document. -/
def ValuesMap := List (String × String)

/-- Lookup in the `values` sub-map. -/
def ValuesMap.get : ValuesMap → String → Option String
  | [], _ => none
  | (k, v) :: rest, x => if k = x then some v else ValuesMap.get rest x

/-- Keyed write to the `values` sub-map (`state.put(&values, k, v)`). -/
def ValuesMap.put (m : ValuesMap) (k v : String) : ValuesMap :=
  (k, v) :: m.filter (fun p => decide (p.1 ≠ k))

/-- Outcome of `HolyDiverDataHandler::store_data`.  The function opens
`automerge.dat` with truncate+create+write and `unwrap`s the open result
(panicking on an open error); a `write_all` error is only logged. -/
inductive PersistOutcome
  | ok
  | loggedWriteError
  | panicOpenFailed
deriving DecidableEq, Repr

/-- `HolyDiverDataHandler::store_data`, parametrized by the two I/O
outcomes the environment can produce. -/
def store_data (openOk writeOk : Bool) : PersistOutcome :=
  if openOk then
    if writeOk then .ok else .loggedWriteError
  else .panicOpenFailed

/-- Result of a `set_field` call as seen by the caller. -/
inductive SetFieldOutcome
  | returnedOk
  | panicked
deriving DecidableEq, Repr

/-- `HolyDiverDataHandler::set_field`: write `values[name] = value`,
then persist via `store_data`; an open failure inside `store_data`
propagates as a panic, every other outcome returns `Ok(())`. -/
def set_field (values : ValuesMap) (field_name field_value : String)
    (openOk writeOk : Bool) : ValuesMap × SetFieldOutcome :=
  let values2 := values.put field_name field_value
  match store_data openOk writeOk with
  | .panicOpenFailed => (values2, .panicked)
  | _ => (values2, .returnedOk)

/-- `HolyDiverDataHandler::handle_message` of core.rs: on `FullSync`,
parse the payload as a document (`AutoCommit::load`) and merge it into
the local state, logging a parse failure without mutation; any other
message type is logged and ignored.  The automerge document type and its
load/merge primitives are external and passed as parameters. -/
def handle_message {Doc : Type} (load : ByteSeq → Option Doc)
    (mergeDoc : Doc → Doc → Doc) (state : Doc)
    (msg_type : MessageType) (msg_payload : ByteSeq) : Doc :=
  match msg_type with
  | .FullSync =>
    match load msg_payload with
    | some doc => mergeDoc state doc
    | none => state
  | .IncSync => state

/-! ## The HTTP surface: src/swim/server.rs and src/lib.rs -/

/-- `HolyDiverDataHandler::get_field`: look `field_name` up in the
`values` sub-map.  (The `Display` quoting that automerge's `Value`
applies in `to_string` is external behaviour and not modelled.) -/
def get_field (values : ValuesMap) (field_name : String) : Option String :=
  values.get field_name

/-- Result of the `GET /state/{field}` route handler. -/
inductive RouteResult
  | ok (status : Nat) (body : String)
  | panicked
deriving DecidableEq, Repr

/-- The `get_field` route handler of server.rs: `unwrap` the store's
`Option<String>` (panicking when the field is absent) and answer 200
with body `"{field}: {value}"`. -/
def get_field_route (values : ValuesMap) (field : String) : RouteResult :=
  match get_field values field with
  | some value => .ok 200 (field ++ ": " ++ value)
  | none => .panicked

/-- The wasm-bindgen `get_field` of lib.rs: substitute `"N/A"` for an
absent field (`unwrap_or`). -/
def wasm_get_field (values : ValuesMap) (field_name : String) : String :=
  (get_field values field_name).getD "N/A"

/-! ## Codec lemmas -/

theorem toLEBytes_length (k : Nat) : ∀ n, (toLEBytes k n).length = k := by
  induction k with
  | zero => intro n; rfl
  | succ k ih => intro n; simp [toLEBytes, ih]

theorem fromLEBytes_toLEBytes (k : Nat) : ∀ n, fromLEBytes (toLEBytes k n) = n % 256 ^ k := by
  induction k with
  | zero => intro n; simp [toLEBytes, fromLEBytes, Nat.mod_one]
  | succ k ih =>
    intro n
    rw [toLEBytes, fromLEBytes, ih, pow_succ, mul_comm (256 ^ k) 256, Nat.mod_mul]

theorem readLE_toLEBytes (k n : Nat) (rest : ByteSeq) :
    readLE k (toLEBytes k n ++ rest) = some (n % 256 ^ k, rest) := by
  have hlen : (toLEBytes k n).length = k := toLEBytes_length k n
  rw [readLE, if_pos]
  · rw [List.take_append_of_le_length (by omega), List.take_of_length_le (by omega),
      List.drop_append_of_le_length (by omega), List.drop_of_length_le (by omega),
      List.nil_append, fromLEBytes_toLEBytes]
  · rw [List.length_append, hlen]; omega

theorem decodeVarint_encodeVarint (n : Nat) (h : n < 2 ^ 64) (rest : ByteSeq) :
    decodeVarint (encodeVarint n ++ rest) = some (n, rest) := by
  rw [encodeVarint]
  by_cases h1 : n < 251
  · rw [if_pos h1]; simp [decodeVarint, h1]
  · rw [if_neg h1]
    by_cases h2 : n < 2 ^ 16
    · rw [if_pos h2]
      show decodeVarint (251 :: (toLEBytes 2 n ++ rest)) = some (n, rest)
      rw [decodeVarint, if_neg (by omega), if_pos rfl, readLE_toLEBytes,
        Nat.mod_eq_of_lt (by norm_num at h2 ⊢; omega)]
    · rw [if_neg h2]
      by_cases h3 : n < 2 ^ 32
      · rw [if_pos h3]
        show decodeVarint (252 :: (toLEBytes 4 n ++ rest)) = some (n, rest)
        rw [decodeVarint, if_neg (by omega), if_neg (by omega), if_pos rfl,
          readLE_toLEBytes, Nat.mod_eq_of_lt (by norm_num at h3 ⊢; omega)]
      · rw [if_neg h3]
        show decodeVarint (253 :: (toLEBytes 8 n ++ rest)) = some (n, rest)
        rw [decodeVarint, if_neg (by omega), if_neg (by omega), if_neg (by omega),
          if_pos rfl, readLE_toLEBytes, Nat.mod_eq_of_lt (by norm_num at h ⊢; omega)]

theorem parseUuid_encodeUuid (u : Uuid) (h : u.length = 16) (rest : ByteSeq) :
    parseUuid (encodeUuid u ++ rest) = some (u, rest) := by
  rw [encodeUuid, h, List.append_assoc, parseUuid,
    decodeVarint_encodeVarint 16 (by norm_num) (u ++ rest)]
  show (if (16 : Nat) = 16 then
      if 16 ≤ (u ++ rest).length then some ((u ++ rest).take 16, (u ++ rest).drop 16)
      else none
    else none) = some (u, rest)
  rw [if_pos rfl, if_pos (by rw [List.length_append, h]; omega),
    List.take_append_of_le_length (by omega), List.take_of_length_le (by omega),
    List.drop_append_of_le_length (by omega), List.drop_of_length_le (by omega),
    List.nil_append]

theorem parseVecU8_encodeByteSeq (b : ByteSeq) (h : b.length < 2 ^ 64) (rest : ByteSeq) :
    parseVecU8 (encodeByteSeq b ++ rest) = some (b, rest) := by
  rw [encodeByteSeq, List.append_assoc, parseVecU8,
    decodeVarint_encodeVarint b.length h (b ++ rest)]
  show (if b.length ≤ (b ++ rest).length then
      some ((b ++ rest).take b.length, (b ++ rest).drop b.length)
    else none) = some (b, rest)
  rw [if_pos (by rw [List.length_append]; omega),
    List.take_append_of_le_length (by omega), List.take_of_length_le (by omega),
    List.drop_append_of_le_length (by omega), List.drop_of_length_le (by omega),
    List.nil_append]

theorem parseRawBroadcast_encodeRawBroadcast (b : RawBroadcast)
    (h16 : b.id.length = 16) (hlen : b.data.length < 2 ^ 64) (rest : ByteSeq) :
    parseRawBroadcast (encodeRawBroadcast b ++ rest) = some (b, rest) := by
  rw [encodeRawBroadcast, List.append_assoc, parseRawBroadcast,
    parseUuid_encodeUuid b.id h16]
  show (match parseVecU8 (encodeByteSeq b.data ++ rest) with
        | none => none
        | some (data, r2) => some (⟨b.id, data⟩, r2)) = some (b, rest)
  rw [parseVecU8_encodeByteSeq b.data hlen]

theorem encodeVarint_length_pos (n : Nat) : 1 ≤ (encodeVarint n).length := by
  rw [encodeVarint]
  split
  · simp
  · split
    · simp
    · split <;> simp

/-! ## Deduplication lemmas -/

theorem storeCallCount_of_seen (u : Uuid) (inputs : List ByteSeq) :
    ∀ s : HandlerState, u ∈ s.seen_op_ids → storeCallCount u inputs s = 0 := by
  induction inputs with
  | nil => intro s _; rfl
  | cons d rest ih =>
    intro s hs
    rw [storeCallCount]
    rcases hp : parseRawBroadcast d with _ | ⟨b, r⟩
    · simp only [receive_item, hp]
      rw [ih s hs]
    · simp only [receive_item, hp]
      by_cases hb : b.id ∈ s.seen_op_ids
      · rw [if_pos hb]
        simp only
        rw [ih s hs]
      · rw [if_neg hb]
        simp only [List.length_cons, List.length_nil]
        have hne : b.id ≠ u := fun he => hb (he ▸ hs)
        rw [if_neg hne, ih ⟨b.id :: s.seen_op_ids⟩ (List.mem_cons_of_mem _ hs)]

theorem storeCallCount_le_one (u : Uuid) (inputs : List ByteSeq) :
    ∀ s : HandlerState, storeCallCount u inputs s ≤ 1 := by
  induction inputs with
  | nil => intro s; simp [storeCallCount]
  | cons d rest ih =>
    intro s
    rw [storeCallCount]
    rcases hp : parseRawBroadcast d with _ | ⟨b, r⟩
    · simp only [receive_item, hp]
      have := ih s; omega
    · simp only [receive_item, hp]
      by_cases hb : b.id ∈ s.seen_op_ids
      · rw [if_pos hb]
        simp only
        have := ih s; omega
      · rw [if_neg hb]
        simp only [List.length_cons, List.length_nil]
        by_cases he : b.id = u
        · rw [if_pos he]
          have h0 : storeCallCount u rest ⟨b.id :: s.seen_op_ids⟩ = 0 :=
            storeCallCount_of_seen u rest _ (by rw [he]; exact List.mem_cons_self _ _)
          omega
        · rw [if_neg he]
          have := ih ⟨b.id :: s.seen_op_ids⟩; omega

/-! ## Member registry lemmas -/

theorem Members.lookup_eraseAddr_self (x : SocketAddr) :
    ∀ m : Members, (m.eraseAddr x).lookup x = none := by
  intro m
  induction m with
  | nil => rfl
  | cons p rest ih =>
    obtain ⟨a, c⟩ := p
    rw [Members.eraseAddr]
    by_cases hax : a = x
    · rw [if_pos hax]; exact ih
    · rw [if_neg hax, Members.lookup, if_neg hax]; exact ih

theorem Members.lookup_eraseAddr_ne (x y : SocketAddr) (h : y ≠ x) :
    ∀ m : Members, (m.eraseAddr x).lookup y = m.lookup y := by
  intro m
  induction m with
  | nil => rfl
  | cons p rest ih =>
    obtain ⟨a, c⟩ := p
    rw [Members.eraseAddr]
    by_cases hax : a = x
    · rw [if_pos hax, Members.lookup, if_neg (by rw [hax]; exact fun he => h he.symm)]
      exact ih
    · rw [if_neg hax, Members.lookup, Members.lookup]
      by_cases hay : a = y
      · rw [if_pos hay, if_pos hay]
      · rw [if_neg hay, if_neg hay]; exact ih

theorem Members.lookup_insertAddr (m : Members) (x : SocketAddr) (c : Nat)
    (y : SocketAddr) :
    (m.insertAddr x c).lookup y = if x = y then some c else m.lookup y := by
  rw [Members.insertAddr, Members.lookup]
  by_cases hxy : x = y
  · rw [if_pos hxy, if_pos hxy]
  · rw [if_neg hxy, if_neg hxy,
      Members.lookup_eraseAddr_ne x y (fun he => hxy he.symm)]

theorem Members.countOf_insertAddr (m : Members) (x : SocketAddr) (c : Nat)
    (y : SocketAddr) :
    (m.insertAddr x c).countOf y = if x = y then c else m.countOf y := by
  rw [Members.countOf, Members.lookup_insertAddr]
  by_cases hxy : x = y
  · rw [if_pos hxy, if_pos hxy]; rfl
  · rw [if_neg hxy, if_neg hxy]; rfl

/-- All counters stored in the registry are valid `u8` values. -/
def Members.WF (m : Members) : Prop := ∀ a : SocketAddr, m.countOf a < 256

theorem Members.WF_new : Members.WF Members.new := by
  intro a
  show (0 : Nat) < 256
  omega

theorem Members.countOf_eraseAddr (m : Members) (x y : SocketAddr) :
    (m.eraseAddr x).countOf y = if y = x then 0 else m.countOf y := by
  by_cases hyx : y = x
  · rw [if_pos hyx, hyx, Members.countOf, Members.lookup_eraseAddr_self]; rfl
  · rw [if_neg hyx, Members.countOf, Members.lookup_eraseAddr_ne x y hyx]; rfl

theorem Members.WF_applyMemberOp (m : Members) (h : Members.WF m) (op : MemberOp) :
    Members.WF (applyMemberOp m op) := by
  cases op with
  | add id =>
    intro a
    show ((m.add_member id).1).countOf a < 256
    rw [Members.add_member]
    simp only
    rw [Members.countOf_insertAddr]
    by_cases hx : id.addr = a
    · rw [if_pos hx]; omega
    · rw [if_neg hx]; exact h a
  | remove id =>
    intro a
    show ((m.remove_member id).1).countOf a < 256
    rw [Members.remove_member]
    rcases hl : m.lookup id.addr with _ | c
    · exact h a
    · simp only
      by_cases hz : (c + 255) % 256 = 0
      · rw [if_pos hz, Members.countOf_eraseAddr]
        by_cases hax : a = id.addr
        · rw [if_pos hax]; omega
        · rw [if_neg hax]; exact h a
      · rw [if_neg hz, Members.countOf_insertAddr]
        by_cases hx : id.addr = a
        · rw [if_pos hx]; omega
        · rw [if_neg hx]; exact h a

theorem Members.WF_applyMemberOps (ops : List MemberOp) :
    ∀ m : Members, Members.WF m → Members.WF (applyMemberOps ops m) := by
  induction ops with
  | nil => intro m h; exact h
  | cons op rest ih =>
    intro m h
    exact ih (applyMemberOp m op) (Members.WF_applyMemberOp m h op)

/-! ## Concrete values used by witnesses and counterexamples -/

/-- A concrete 16-byte uuid. -/
def uuidZ : Uuid := List.range 16

/-- Another concrete 16-byte uuid. -/
def uuidFives : Uuid := List.replicate 16 5

/-- A third concrete 16-byte uuid. -/
def uuidNines : Uuid := List.replicate 16 9

/-- A concrete raw broadcast. -/
def rbA : RawBroadcast := ⟨uuidZ, [7]⟩

/-- A concrete gossip message. -/
def gmC : GossipMessage := ⟨.FullSync, [7]⟩

/-- A raw broadcast whose inner data is an encoded gossip message. -/
def rbD : RawBroadcast := ⟨uuidFives, encodeGossipMessage gmC⟩

/-- A concrete peer identity. -/
def idA : ID := ⟨SocketAddr.v4 127 0 0 1 9000, 0⟩

/-- A concrete stand-in for `AutoCommit::load` in witnesses: fails on the
empty byte string, otherwise reports the length. -/
def loadLen (l : ByteSeq) : Option Nat := if l = [] then none else some l.length

/-! ## Claims -/

/-- C1: across any sequence of `receive_item` calls, the message handler
(the Document Store hook) is invoked at most once per operation id; a
delivery of a not-yet-seen id records the id and invokes the handler
exactly once, and any delivery whose id is already in `seen_op_ids`
returns `Ok(None)` without invoking it. -/
theorem receive_dedup_at_most_once (u : Uuid) (inputs : List ByteSeq)
    (d : ByteSeq) (s1 s2 : HandlerState) (b : RawBroadcast) (rest : ByteSeq) :
    storeCallCount u inputs HandlerState.fresh ≤ 1
  ∧ (parseRawBroadcast d = some (b, rest) → b.id ∉ s1.seen_op_ids →
      receive_item d s1 =
        ⟨⟨b.id :: s1.seen_op_ids⟩, .ok (some b), [(MessageType.FullSync, b.data)]⟩)
  ∧ (parseRawBroadcast d = some (b, rest) → b.id ∈ s2.seen_op_ids →
      receive_item d s2 = ⟨s2, .ok none, []⟩) := by
  refine ⟨storeCallCount_le_one u inputs HandlerState.fresh, ?_, ?_⟩
  · intro hp hn
    simp only [receive_item, hp]
    rw [if_neg hn]
  · intro hp hs
    simp only [receive_item, hp]
    rw [if_pos hs]

/-- Witness for the dedup theorem at a concrete broadcast delivered twice. -/
theorem receive_dedup_at_most_once_witness :
    storeCallCount uuidZ [encodeRawBroadcast rbA, encodeRawBroadcast rbA]
      HandlerState.fresh ≤ 1
  ∧ receive_item (encodeRawBroadcast rbA) HandlerState.fresh
      = ⟨⟨[uuidZ]⟩, .ok (some rbA), [(MessageType.FullSync, rbA.data)]⟩
  ∧ receive_item (encodeRawBroadcast rbA) ⟨[uuidZ]⟩ = ⟨⟨[uuidZ]⟩, .ok none, []⟩ := by
  have h := receive_dedup_at_most_once uuidZ
    [encodeRawBroadcast rbA, encodeRawBroadcast rbA]
    (encodeRawBroadcast rbA) HandlerState.fresh ⟨[uuidZ]⟩ rbA []
  exact ⟨h.1, h.2.1 (by decide) (by decide), h.2.2 (by decide) (by decide)⟩

/-- C2 (code bug): feeding the bytes of `craft_broadcast(tag, msg)` into
`receive_item` on a fresh handler does not return `Some(item)`: the
receive path tries to bincode-decode a `RawBroadcast` from the
u16-length-prefixed tag framing and panics on the failed `unwrap`. -/
theorem receive_of_crafted_item_panics :
    (receive_item (craft_broadcast encodeGossipMessage (Tag.Operation uuidZ) gmC).data
        HandlerState.fresh).result = ReceiveResult.panic := by decide

/-- C3 counterexample: the crafted item is not the bare concatenation of
the tag encoding and the payload encoding. -/
theorem craft_output_not_bare_concat :
    (craft_broadcast encodeGossipMessage (Tag.Operation uuidZ) gmC).data
      ≠ encodeTag (Tag.Operation uuidZ) ++ encodeGossipMessage gmC := by decide

/-- C3 amended: `craft_broadcast` and `craft_broadcast2` produce the
concatenation of the tag encoding and the payload bytes with a two-byte
big-endian length header in front; only `craft_broadcast3` (the
`RawBroadcast` serialization) carries no length header. -/
theorem craft_emits_u16_length_header {α : Type} (enc : α → ByteSeq) (tag : Tag)
    (item : α) (raw : ByteSeq) (b : RawBroadcast) :
    (craft_broadcast enc tag item).data
      = u16be (encodeTag tag ++ enc item).length ++ (encodeTag tag ++ enc item)
  ∧ (u16be (encodeTag tag ++ enc item).length).length = 2
  ∧ (craft_broadcast2 tag raw).data
      = u16be (encodeTag tag ++ raw).length ++ (encodeTag tag ++ raw)
  ∧ craft_broadcast3 b = encodeRawBroadcast b :=
  ⟨rfl, rfl, rfl, rfl⟩

/-- C4 (code bug): a byte string that fails to deserialize makes
`receive_item` panic through `unwrap` instead of returning the handler's
string error. -/
theorem receive_malformed_input_panics :
    receive_item [] HandlerState.fresh
      = ⟨HandlerState.fresh, ReceiveResult.panic, []⟩ := rfl

/-- C5 counterexample: for an accepted item whose data is an encoded
`GossipMessage`, the receive path does not deserialize it; the message
handler is invoked with the whole encoding (and hardcoded `FullSync`),
not with the message's payload. -/
theorem receive_forwards_encoded_gossip_not_payload :
    (receive_item (encodeRawBroadcast rbD) HandlerState.fresh).calls
      = [(MessageType.FullSync, encodeGossipMessage gmC)]
  ∧ encodeGossipMessage gmC ≠ gmC.message_payload := by decide

/-- C5 amended: `receive_item` forwards the raw inner data of every
accepted item to the message handler with `MessageType::FullSync`;
`handle_message` merges a parseable `FullSync` payload, leaves the state
unchanged on a parse failure, and logs and ignores `IncSync`. -/
theorem receive_raw_dispatch_semantics {Doc : Type} (load : ByteSeq → Option Doc)
    (mergeDoc : Doc → Doc → Doc) (st doc : Doc)
    (d : ByteSeq) (s : HandlerState) (b : RawBroadcast) (rest : ByteSeq)
    (p1 p2 q : ByteSeq) :
    (parseRawBroadcast d = some (b, rest) → b.id ∉ s.seen_op_ids →
      (receive_item d s).calls = [(MessageType.FullSync, b.data)])
  ∧ (load p1 = some doc →
      handle_message load mergeDoc st MessageType.FullSync p1 = mergeDoc st doc)
  ∧ (load p2 = none → handle_message load mergeDoc st MessageType.FullSync p2 = st)
  ∧ handle_message load mergeDoc st MessageType.IncSync q = st := by
  refine ⟨?_, ?_, ?_, rfl⟩
  · intro hp hn
    simp only [receive_item, hp]
    rw [if_neg hn]
  · intro hl
    simp only [handle_message, hl]
  · intro hl
    simp only [handle_message, hl]

/-- Witness for the raw-dispatch theorem at concrete values. -/
theorem receive_raw_dispatch_semantics_witness :
    (receive_item (encodeRawBroadcast rbA) HandlerState.fresh).calls
      = [(MessageType.FullSync, rbA.data)]
  ∧ handle_message loadLen Nat.add 5 MessageType.FullSync [9] = Nat.add 5 1
  ∧ handle_message loadLen Nat.add 5 MessageType.FullSync [] = 5
  ∧ handle_message loadLen Nat.add 5 MessageType.IncSync [3] = 5 := by
  have h := receive_raw_dispatch_semantics loadLen Nat.add 5 1
    (encodeRawBroadcast rbA) HandlerState.fresh rbA [] [9] [] [3]
  exact ⟨h.1 (by decide) (by decide), h.2.1 (by decide), h.2.2.1 (by decide), h.2.2.2⟩

/-- C6 (code bug): `set_field` panics when opening `automerge.dat`
fails (the `unwrap` in `store_data`); only a `write_all` failure is
logged, in which case the in-memory write is kept and `Ok(())` is
returned. -/
theorem set_field_persist_failure_behaviour :
    (set_field [] "color" "red" false true).2 = SetFieldOutcome.panicked
  ∧ (set_field [] "color" "red" true false).2 = SetFieldOutcome.returnedOk
  ∧ ValuesMap.get (set_field [] "color" "red" true false).1 "color" = some "red" :=
  ⟨rfl, rfl, rfl⟩

/-- C7: over any call sequence, `add_member` reports `true` exactly on a
0-to-1 transition of the address's reference count, `remove_member`
reports `true` exactly on a 1-to-0 transition (deleting the entry), and
removing an absent address is a no-op reporting `false`. -/
theorem members_registry_transitions (ops : List MemberOp) (id : ID) :
    (((applyMemberOps ops Members.new).add_member id).2 = true ↔
      ((applyMemberOps ops Members.new).countOf id.addr = 0 ∧
        ((applyMemberOps ops Members.new).add_member id).1.countOf id.addr = 1))
  ∧ (((applyMemberOps ops Members.new).remove_member id).2 = true ↔
      ((applyMemberOps ops Members.new).countOf id.addr = 1 ∧
        ((applyMemberOps ops Members.new).remove_member id).1.lookup id.addr = none))
  ∧ ((applyMemberOps ops Members.new).lookup id.addr = none →
      (applyMemberOps ops Members.new).remove_member id
        = (applyMemberOps ops Members.new, false)) := by
  set m := applyMemberOps ops Members.new with hm
  have hWF : Members.WF m := Members.WF_applyMemberOps ops Members.new Members.WF_new
  have hc : m.countOf id.addr < 256 := hWF id.addr
  refine ⟨?_, ?_, ?_⟩
  · simp only [Members.add_member, beq_iff_eq]
    rw [Members.countOf_insertAddr, if_pos rfl]
    omega
  · rcases hl : m.lookup id.addr with _ | c
    · have hc0 : m.countOf id.addr = 0 := by rw [Members.countOf, hl]; rfl
      simp only [Members.remove_member, hl]
      simp [hc0]
    · have hcc : m.countOf id.addr = c := by rw [Members.countOf, hl]; rfl
      simp only [Members.remove_member, hl]
      by_cases h1 : c = 1
      · subst h1
        rw [if_pos (by norm_num)]
        simp only
        constructor
        · intro _; exact ⟨hcc, Members.lookup_eraseAddr_self id.addr m⟩
        · intro _; trivial
      · rw [if_neg (by omega)]
        simp only
        constructor
        · intro hff; cases hff
        · rintro ⟨h1', _⟩; omega
  · intro hl
    rw [Members.remove_member, hl]

/-- Witness for the registry theorem: removing from the empty registry. -/
theorem members_registry_transitions_witness :
    Members.remove_member Members.new idA = (Members.new, false) :=
  (members_registry_transitions [] idA).2.2 rfl

/-- C8: two buffered `Broadcast` items invalidate exactly when both tags
are `NodeConfig` for the same node with a strictly newer version on the
left; every other tag combination, and every `RawBroadcast` pair, does
not invalidate. -/
theorem broadcast_invalidates_iff (b1 b2 : Broadcast) (r1 r2 : RawBroadcast) :
    (b1.invalidates b2 = true ↔
      ∃ node v1 v2, b1.tag = Tag.NodeConfig node v1 ∧ b2.tag = Tag.NodeConfig node v2
        ∧ v2 < v1)
  ∧ r1.invalidates r2 = false := by
  refine ⟨?_, rfl⟩
  obtain ⟨t1, d1⟩ := b1
  obtain ⟨t2, d2⟩ := b2
  cases t1 with
  | Operation id1 =>
    cases t2 with
    | Operation id2 => simp [Broadcast.invalidates]
    | NodeConfig n2 v2 => simp [Broadcast.invalidates]
  | NodeConfig n1 v1 =>
    cases t2 with
    | Operation id2 => simp [Broadcast.invalidates]
    | NodeConfig n2 v2 =>
      simp only [Broadcast.invalidates]
      by_cases hn : n1 = n2
      · subst hn
        rw [if_pos rfl]
        simp only [decide_eq_true_eq]
        constructor
        · intro h
          exact ⟨n1, v1, v2, rfl, rfl, h⟩
        · rintro ⟨node, w1, w2, he1, he2, hlt⟩
          injection he1 with e1 e2
          injection he2 with e3 e4
          subst e2; subst e4
          exact hlt
      · rw [if_neg hn]
        constructor
        · intro hff; cases hff
        · rintro ⟨node, w1, w2, he1, he2, hlt⟩
          injection he1 with e1 e2
          injection he2 with e3 e4
          exact absurd (e1.trans e3.symm) hn

/-- C9 (code bug): the `GET /state/{field}` route handler panics through
`unwrap` when the field is absent; a present field answers 200 with body
`"{field}: {value}"`, and only the wasm `get_field` substitutes
`"N/A"`. -/
theorem get_field_route_absent_field_panics :
    get_field_route [] "color" = RouteResult.panicked
  ∧ get_field_route [("color", "red")] "color" = RouteResult.ok 200 "color: red"
  ∧ wasm_get_field [] "color" = "N/A" :=
  ⟨rfl, rfl, rfl⟩

/-- C10: the byte view re-transmitted for an accepted item is the inner
`data` field alone, while the item was received as the serialization of
the whole `RawBroadcast`, which those bytes never equal. -/
theorem rawbroadcast_asref_omits_id (b : RawBroadcast) (s : HandlerState)
    (h16 : b.id.length = 16) (hlen : b.data.length < 2 ^ 64)
    (hseen : b.id ∉ s.seen_op_ids) :
    b.asRef = b.data
  ∧ receive_item (encodeRawBroadcast b) s
      = ⟨⟨b.id :: s.seen_op_ids⟩, .ok (some b), [(MessageType.FullSync, b.data)]⟩
  ∧ encodeRawBroadcast b ≠ b.asRef := by
  have hp : parseRawBroadcast (encodeRawBroadcast b) = some (b, []) := by
    have h := parseRawBroadcast_encodeRawBroadcast b h16 hlen []
    rwa [List.append_nil] at h
  refine ⟨rfl, ?_, ?_⟩
  · simp only [receive_item, hp]
    rw [if_neg hseen]
  · intro he
    have hlens := congrArg List.length he
    rw [RawBroadcast.asRef, encodeRawBroadcast, encodeUuid, encodeByteSeq] at hlens
    simp only [List.length_append] at hlens
    have h1 := encodeVarint_length_pos b.id.length
    have h2 := encodeVarint_length_pos b.data.length
    omega

/-- Witness for the byte-view theorem at a concrete broadcast. -/
theorem rawbroadcast_asref_omits_id_witness :
    RawBroadcast.asRef ⟨uuidNines, [1, 2, 3]⟩ = [1, 2, 3]
  ∧ receive_item (encodeRawBroadcast ⟨uuidNines, [1, 2, 3]⟩) HandlerState.fresh
      = ⟨⟨[uuidNines]⟩, .ok (some ⟨uuidNines, [1, 2, 3]⟩),
          [(MessageType.FullSync, [1, 2, 3])]⟩
  ∧ encodeRawBroadcast ⟨uuidNines, [1, 2, 3]⟩ ≠ [1, 2, 3] :=
  rawbroadcast_asref_omits_id ⟨uuidNines, [1, 2, 3]⟩ HandlerState.fresh
    (by decide) (by norm_num) (by decide)

end HolyDiver
